import Mathlib

/-!
Verification of the swap client orchestration layer (`client/client.go`)
of the lightning-loop repository.

The definitions below are a shallow embedding of `client/client.go`.
Collaborators that live outside that file (the persistent store, the
executor, the swap state machine constructors `newUnchargeSwap` and
`resumeUnchargeSwap`, and the fee helper `utils.CalcFee`) are modelled
from the specification; each such definition carries a doc comment
saying so.
-/

/-- Classification of a swap state, spec section 3: `Type()` returns
Pending or Terminal. -/
inductive StateType where
  | pending
  | terminal
deriving DecidableEq, Repr

/-- Modelled from the spec: the swap state variant (the state machine
definitions are not under src/). Spec section 4.2: pending sub-states
`Initiated -> HtlcBroadcast -> AwaitingConfirmation -> OffchainSettled`,
terminal sub-states `Success`, `Failed`, `Expired`. -/
inductive SwapState where
  | initiated
  | htlcBroadcast
  | awaitingConfirmation
  | offchainSettled
  | success
  | failed
  | expired
deriving DecidableEq, Repr

/-- Modelled from the spec: `State().Type()` classifies a state as
Pending or Terminal for resume filtering (spec section 3). -/
def SwapState.typ : SwapState → StateType
  | .initiated => .pending
  | .htlcBroadcast => .pending
  | .awaitingConfirmation => .pending
  | .offchainSettled => .pending
  | .success => .terminal
  | .failed => .terminal
  | .expired => .terminal

/-- A persisted swap record (`PersistentUncharge`). The `malformed` flag
models data corruption: per spec section 4.2, `resume` "fails only on
data corruption (malformed record)". -/
structure PersistentUncharge where
  hash : Nat
  state : SwapState
  creationHeight : Int
  amount : Int
  malformed : Bool
deriving DecidableEq, Repr

/-- An in-memory swap state machine instance, reduced to the data the
orchestrator observes: its identifier hash. -/
structure Swap where
  hash : Nat
deriving DecidableEq, Repr

/-- Errors surfaced by the client layer. The first two correspond to
`ErrSwapAmountTooLow` / `ErrSwapAmountTooHigh` in `client.go`; the rest
stand for the error values produced by the respective code paths. -/
inductive ClientError where
  | swapAmountTooLow
  | swapAmountTooHigh
  | ctxCanceled
  | alreadyStarted
  | getInfoError
  | storeError
  | serverError
  | sweeperError
  | executorError
deriving DecidableEq, Repr

/-- Server-advertised terms (`UnchargeTerms`): min/max amount, fee base
and rate, prepay amount. The fee rate is kept as a rational. -/
structure UnchargeTerms where
  MinSwapAmount : Int
  MaxSwapAmount : Int
  SwapFeeBase : Int
  SwapFeeRate : ℚ
  PrepayAmt : Int
deriving DecidableEq, Repr

/-- A swap request (`UnchargeRequest`), reduced to the fields the
orchestration layer inspects. -/
structure UnchargeRequest where
  Amount : Int
deriving DecidableEq, Repr

/-- A quote request (`UnchargeQuoteRequest`). -/
structure UnchargeQuoteRequest where
  Amount : Int
  SweepConfTarget : Int
deriving DecidableEq, Repr

/-- The quote returned by `UnchargeQuote`. -/
structure UnchargeQuote where
  SwapFee : Int
  MinerFee : Int
  PrepayAmount : Int
deriving DecidableEq, Repr

/-- Modelled from the spec: `utils.CalcFee` (not under src/). Spec
section 4.3: "computes the swap fee as a function of base fee + rate
over amount"; the fee-quote example in section 8 fixes
`100 + 0.01 * 50000 = 600`. The product is floored to an integer
amount. -/
def CalcFee (amount feeBase : Int) (feeRate : ℚ) : Int :=
  feeBase + Int.floor (feeRate * (amount : ℚ))

/-- Modelled from the spec: `resumeUnchargeSwap` (not under src/).
Spec section 4.2: `resume` reconstructs a swap from a persisted record
without contacting the server and "fails only on data corruption
(malformed record)". -/
def resumeUnchargeSwap (p : PersistentUncharge) : Option Swap :=
  if p.malformed then none else some ⟨p.hash⟩

/-- Modelled from the spec: `newUnchargeSwap` (not under src/). Spec
section 4.2: `new` validates request parameters against the
server-advertised min/max amount, fails with a descriptive error
without mutating the Store, and otherwise assigns a fresh identifier
hash and persists the initial record (state `Initiated`, stamped with
the initiation height). `terms = none` models a failed terms RPC. -/
def newUnchargeSwap (terms : Option UnchargeTerms) (initiationHeight : Int)
    (request : UnchargeRequest) (freshHash : Nat) :
    Except ClientError (Swap × PersistentUncharge) :=
  match terms with
  | none => .error .serverError
  | some t =>
    if request.Amount < t.MinSwapAmount then .error .swapAmountTooLow
    else if request.Amount > t.MaxSwapAmount then .error .swapAmountTooHigh
    else .ok (⟨freshHash⟩,
      { hash := freshHash
        state := .initiated
        creationHeight := initiationHeight
        amount := request.Amount
        malformed := false })

/-- `resumeSwaps` from `client.go`: for each record, skip it unless its
state classifies as Pending, reconstruct it with `resumeUnchargeSwap`
(skipping records that fail to reconstruct), and submit the result to
the executor. The returned list is the sequence of submissions, in
order. -/
def resumeSwaps : List PersistentUncharge → List Swap
  | [] => []
  | p :: rest =>
    if p.state.typ ≠ StateType.pending then resumeSwaps rest
    else
      match resumeUnchargeSwap p with
      | none => resumeSwaps rest
      | some sw => sw :: resumeSwaps rest

/-- The mutable client state observed by the orchestration layer:
the atomic `started` flag, the store contents (list of persisted
records, append-only), the two one-shot synchronization gates
(`executor.ready` and `resumeReady`), and the sequence of swaps
submitted to the executor via `initiateSwap`. -/
structure ClientState where
  started : Bool
  store : List PersistentUncharge
  execReady : Bool
  resumeReady : Bool
  submitted : List Swap
deriving DecidableEq, Repr

/-- Outcome of one `select` over a gate channel and `ctx.Done()`, and of
`waitForInitialized`: the gate branch was taken (`ok`), the context
branch was taken (`ctxErr`), or neither channel is ready and the call
blocks (`blocked`). -/
inductive WaitOutcome where
  | ok
  | ctxErr
  | blocked
deriving DecidableEq, Repr

/-- One two-armed `select` on a gate channel versus `ctx.Done()`.
`gate` is whether the gate has fired, `ctxDone` whether the context is
cancelled, and `choice` resolves Go's random pick when both arms are
ready (`true` picks the context arm). -/
def selectGate (gate ctxDone choice : Bool) : WaitOutcome :=
  if gate then
    if ctxDone && choice then .ctxErr else .ok
  else if ctxDone then .ctxErr
  else .blocked

/-- `waitForInitialized` from `client.go`: first select on
`executor.ready` versus `ctx.Done()`, then on `resumeReady` versus
`ctx.Done()`; returns `ctx.Err()` if a context arm is taken. `c1`, `c2`
are the scheduler's choices for the two selects. -/
def waitForInitialized (execReady resumeReady ctxDone c1 c2 : Bool) :
    WaitOutcome :=
  match selectGate execReady ctxDone c1 with
  | .ok => selectGate resumeReady ctxDone c2
  | r => r

/-- External inputs to one `Uncharge` call: whether the caller's context
is cancelled, the scheduler's select choices, the result of the terms
RPC performed inside `newUnchargeSwap`, the executor's current height,
and the fresh identifier hash derived from the new swap's secret
material. -/
structure UnchargeEnv where
  ctxDone : Bool
  c1 : Bool
  c2 : Bool
  terms : Option UnchargeTerms
  height : Int
  freshHash : Nat
deriving DecidableEq, Repr

/-- `Uncharge` from `client.go`: wait for both gates
(`waitForInitialized`), construct the swap via `newUnchargeSwap`
(which persists the initial record), submit it to the executor, and
return its hash. The first component is `none` when the call blocks,
otherwise the returned `(hash, error)` pair; the second component is
the client state after the call. -/
def Client.Uncharge (s : ClientState) (env : UnchargeEnv)
    (request : UnchargeRequest) :
    Option (Except ClientError Nat) × ClientState :=
  match waitForInitialized s.execReady s.resumeReady env.ctxDone env.c1 env.c2 with
  | .blocked => (none, s)
  | .ctxErr => (some (.error .ctxCanceled), s)
  | .ok =>
    match newUnchargeSwap env.terms env.height request env.freshHash with
    | .error e => (some (.error e), s)
    | .ok (sw, rec) =>
      (some (.ok sw.hash),
        { s with store := s.store ++ [rec], submitted := s.submitted ++ [sw] })

/-- External inputs to one `UnchargeQuote` call: the result of the
terms RPC and of the sweeper's fee estimate. -/
structure QuoteEnv where
  terms : Option UnchargeTerms
  sweepFee : Option Int
deriving DecidableEq, Repr

/-- `UnchargeQuote` from `client.go`: fetch terms, validate the amount
against `[MinSwapAmount, MaxSwapAmount]`, compute the swap fee with
`CalcFee`, query the sweeper for a miner-fee estimate, and return the
combined quote. The client state is returned unchanged alongside the
result, reflecting that the function performs no store operation. -/
def Client.UnchargeQuote (s : ClientState) (env : QuoteEnv)
    (request : UnchargeQuoteRequest) :
    Except ClientError UnchargeQuote × ClientState :=
  match env.terms with
  | none => (.error .serverError, s)
  | some terms =>
    if request.Amount < terms.MinSwapAmount then
      (.error .swapAmountTooLow, s)
    else if request.Amount > terms.MaxSwapAmount then
      (.error .swapAmountTooHigh, s)
    else
      let swapFee := CalcFee request.Amount terms.SwapFeeBase terms.SwapFeeRate
      match env.sweepFee with
      | none => (.error .sweeperError, s)
      | some minerFee =>
        (.ok { SwapFee := swapFee, MinerFee := minerFee,
               PrepayAmount := terms.PrepayAmt }, s)

/-- The externally observable milestones of one `Run` call, in program
order: the store snapshot query, the resume pass with the closing of
the `resumeReady` gate, the executor main loop, and the final waits
(`executor.waitFinished`, `wg.Wait`) that drain all units. -/
inductive RunEvent where
  | storeQuery
  | resumePass
  | closeResumeGate
  | execRun
  | execWaitFinished
  | wgWait
deriving DecidableEq, Repr

/-- External inputs to one `Run` call: whether `GetInfo` succeeds,
whether the store snapshot read succeeds, and the error with which the
executor's main loop returns (`some .ctxCanceled` models
`context.Canceled`, i.e. the caller cancelled the context; `none`
models a nil error). -/
structure RunEnv where
  getInfoOk : Bool
  storeReadOk : Bool
  execResult : Option ClientError
deriving DecidableEq, Repr

/-- `Run` from `client.go`: compare-and-swap the `started` flag
(failing if already set), verify node connectivity (`GetInfo`),
snapshot the pending swaps from the store, run the resume pass
(submitting `resumeSwaps` of the snapshot and then closing the
`resumeReady` gate), run the executor's main loop, map
`context.Canceled` to a nil error, and drain all units before
returning. Returns the final error (`none` = nil), the client state
after the call, and the trace of milestones reached. -/
def Client.Run (s : ClientState) (env : RunEnv) :
    Option ClientError × ClientState × List RunEvent :=
  if s.started then (some .alreadyStarted, s, [])
  else
    let s1 : ClientState := { s with started := true }
    if !env.getInfoOk then (some .getInfoError, s1, [])
    else if !env.storeReadOk then (some .storeError, s1, [.storeQuery])
    else
      let pendingSwaps := s1.store
      let s2 : ClientState :=
        { s1 with
          execReady := true
          submitted := s1.submitted ++ resumeSwaps pendingSwaps
          resumeReady := true }
      let finalErr :=
        if env.execResult = some ClientError.ctxCanceled then none
        else env.execResult
      (finalErr, s2,
        [.storeQuery, .resumePass, .closeResumeGate, .execRun,
         .execWaitFinished, .wgWait])

/-- A submission handed to the executor, tagged with its origin:
`fromUncharge = false` for the resume pass's `initiateSwap` calls,
`true` for the one issued by `Uncharge`. -/
structure SubmitEntry where
  fromUncharge : Bool
  hash : Nat
deriving DecidableEq, Repr

/-- Program counter of the resume goroutine started by `Run`:
still iterating over the remaining records, or done (after
`close(s.resumeReady)`). -/
inductive ResumePC where
  | running (rest : List PersistentUncharge)
  | done
deriving DecidableEq, Repr

/-- Program counter of one `Uncharge` caller: blocked on the first
select (`executor.ready`), blocked on the second select
(`resumeReady`), or past both gates with its swap submitted. -/
inductive UnchargePC where
  | waitExec
  | waitResume
  | finished
deriving DecidableEq, Repr

/-- A configuration of the concurrent system formed by `Run`'s resume
goroutine, the executor's readiness signal, and one `Uncharge` caller. -/
structure Config where
  execReady : Bool
  resumeReady : Bool
  resume : ResumePC
  unch : UnchargePC
  newHash : Nat
  submitted : List SubmitEntry
deriving DecidableEq, Repr

/-- The initial configuration: `Run` has snapshotted `pending` from the
store and started the resume goroutine; neither gate has fired; the
`Uncharge` caller (for a swap with fresh hash `h`) is at its first
select; nothing has been submitted. -/
def initConfig (pending : List PersistentUncharge) (h : Nat) : Config :=
  { execReady := false
    resumeReady := false
    resume := .running pending
    unch := .waitExec
    newHash := h
    submitted := [] }

/-- Whether the resume pass submits record `p`: its state classifies as
Pending and `resumeUnchargeSwap` succeeds on it. -/
def submitsRecord (p : PersistentUncharge) : Prop :=
  p.state.typ = StateType.pending ∧ resumeUnchargeSwap p ≠ none

instance (p : PersistentUncharge) : Decidable (submitsRecord p) :=
  inferInstanceAs (Decidable (_ ∧ _))

/-- Interleaving semantics of `client.go`'s synchronization: one step of
the resume goroutine (skip a record, submit a record, or close the
`resumeReady` gate after the loop), the executor's `ready` signal
firing, or the `Uncharge` caller passing one of its two selects (each
guarded by the corresponding gate) and then submitting its swap. -/
inductive Step : Config → Config → Prop
  | resumeSkip (c : Config) (p : PersistentUncharge)
      (rest : List PersistentUncharge) :
      c.resume = .running (p :: rest) → ¬ submitsRecord p →
      Step c { c with resume := .running rest }
  | resumeSubmit (c : Config) (p : PersistentUncharge)
      (rest : List PersistentUncharge) :
      c.resume = .running (p :: rest) → submitsRecord p →
      Step c { c with
        resume := .running rest
        submitted := c.submitted ++ [⟨false, p.hash⟩] }
  | resumeClose (c : Config) :
      c.resume = .running [] →
      Step c { c with resume := .done, resumeReady := true }
  | execFire (c : Config) :
      Step c { c with execReady := true }
  | unchPassExec (c : Config) :
      c.unch = .waitExec → c.execReady = true →
      Step c { c with unch := .waitResume }
  | unchSubmit (c : Config) :
      c.unch = .waitResume → c.resumeReady = true →
      Step c { c with
        unch := .finished
        submitted := c.submitted ++ [⟨true, c.newHash⟩] }

/-- Configurations reachable from `c` by any interleaving. -/
def Reachable (c c' : Config) : Prop :=
  Relation.ReflTransGen Step c c'

/-- The submissions the resume pass makes for a record list, as tagged
entries. -/
def resumeEntries (l : List PersistentUncharge) : List SubmitEntry :=
  (resumeSwaps l).map (fun sw => ⟨false, sw.hash⟩)

/-- The inductive invariant of the synchronization protocol: the
`resumeReady` gate only fires after the resume goroutine is done; the
`Uncharge` caller only finishes after the gate fired (and after
`executor.ready`); and the submission list is always the resume pass's
submissions for the already-processed prefix, followed by the
`Uncharge` submission when and only when the caller has finished. -/
def GateInv (pending : List PersistentUncharge) (h : Nat) (c : Config) : Prop :=
  c.newHash = h ∧
  (c.resumeReady = true → c.resume = .done) ∧
  (c.unch ≠ .waitExec → c.execReady = true) ∧
  (c.unch = .finished → c.resumeReady = true) ∧
  ∃ pre rest, pending = pre ++ rest ∧
    (c.resume = .running rest ∨ (c.resume = .done ∧ rest = [])) ∧
    c.submitted =
      resumeEntries pre ++
        (if c.unch = .finished then [⟨true, h⟩] else [])

/-- `resumeEntries` distributes over the processing of one record. -/
theorem resumeEntries_append_one (pre : List PersistentUncharge)
    (p : PersistentUncharge) :
    resumeEntries (pre ++ [p]) =
      resumeEntries pre ++
        (if submitsRecord p then [⟨false, p.hash⟩] else []) := by
  induction pre with
  | nil =>
    simp only [resumeEntries, resumeSwaps, List.nil_append, submitsRecord,
      resumeUnchargeSwap]
    by_cases hm : p.malformed <;>
      by_cases ht : p.state.typ = StateType.pending <;>
        simp [hm, ht, resumeSwaps]
  | cons q rest ih =>
    simp only [resumeEntries, resumeSwaps, List.cons_append] at *
    by_cases ht : q.state.typ = StateType.pending
    · simp only [ht, ne_eq, not_true_eq_false, if_neg, ite_false]
      cases hq : resumeUnchargeSwap q <;>
        simp_all [resumeEntries]
    · simp_all [resumeEntries]

/-- Every submission made by the resume pass is tagged as not coming
from `Uncharge`. -/
theorem resumeEntries_fromUncharge_false {l : List PersistentUncharge}
    {e : SubmitEntry} (he : e ∈ resumeEntries l) : e.fromUncharge = false := by
  simp only [resumeEntries, List.mem_map] at he
  obtain ⟨sw, _, rfl⟩ := he
  rfl

/-- The invariant holds in the initial configuration. -/
theorem gateInv_init (pending : List PersistentUncharge) (h : Nat) :
    GateInv pending h (initConfig pending h) := by
  refine ⟨rfl, ?_, ?_, ?_, [], pending, rfl, Or.inl rfl, ?_⟩ <;>
    simp [initConfig, resumeEntries, resumeSwaps]

/-- One interleaving step preserves the invariant. -/
theorem gateInv_step {pending : List PersistentUncharge} {h : Nat}
    {c c' : Config} (inv : GateInv pending h c) (st : Step c c') :
    GateInv pending h c' := by
  obtain ⟨hnh, hrr, hex, hfin, pre, rest, hsplit, hpc, hsub⟩ := inv
  cases st with
  | resumeSkip p rest' hpcr hns =>
    have hrest : rest = p :: rest' := by
      rcases hpc with h1 | ⟨h1, _⟩
      · rw [h1] at hpcr; exact (ResumePC.running.injEq _ _).mp hpcr
      · rw [h1] at hpcr; simp at hpcr
    have hnotready : c.resumeReady = false := by
      cases hready : c.resumeReady
      · rfl
      · exfalso; have hdone := hrr hready; rw [hdone] at hpcr; simp at hpcr
    have hunch : c.unch ≠ .finished := fun hf => by
      rw [hfin hf] at hnotready; cases hnotready
    refine ⟨hnh, ?_, hex, hfin, pre ++ [p], rest', ?_, Or.inl rfl, ?_⟩
    · intro hready
      exfalso; have hdone := hrr hready; rw [hdone] at hpcr; simp at hpcr
    · rw [hsplit, hrest]; simp
    · simp [hsub, resumeEntries_append_one, hns, hunch]
  | resumeSubmit p rest' hpcr hs =>
    have hrest : rest = p :: rest' := by
      rcases hpc with h1 | ⟨h1, _⟩
      · rw [h1] at hpcr; exact (ResumePC.running.injEq _ _).mp hpcr
      · rw [h1] at hpcr; simp at hpcr
    have hnotready : c.resumeReady = false := by
      cases hready : c.resumeReady
      · rfl
      · exfalso; have hdone := hrr hready; rw [hdone] at hpcr; simp at hpcr
    have hunch : c.unch ≠ .finished := fun hf => by
      rw [hfin hf] at hnotready; cases hnotready
    refine ⟨hnh, ?_, hex, hfin, pre ++ [p], rest', ?_, Or.inl rfl, ?_⟩
    · intro hready
      exfalso; have hdone := hrr hready; rw [hdone] at hpcr; simp at hpcr
    · rw [hsplit, hrest]; simp
    · simp [hsub, resumeEntries_append_one, hs, hunch]
  | resumeClose hpcr =>
    have hrest : rest = [] := by
      rcases hpc with h1 | ⟨_, h2⟩
      · rw [h1] at hpcr; exact (ResumePC.running.injEq _ _).mp hpcr
      · exact h2
    have hnotready : c.resumeReady = false := by
      cases hready : c.resumeReady
      · rfl
      · exfalso; have hdone := hrr hready; rw [hdone] at hpcr; simp at hpcr
    have hunch : c.unch ≠ .finished := fun hf => by
      rw [hfin hf] at hnotready; cases hnotready
    refine ⟨hnh, fun _ => rfl, hex, fun _ => rfl, pre, [], ?_,
      Or.inr ⟨rfl, rfl⟩, ?_⟩
    · rw [hsplit, hrest]
    · simp [hsub, hunch]
  | execFire =>
    exact ⟨hnh, hrr, fun _ => rfl, hfin, pre, rest, hsplit, hpc, hsub⟩
  | unchPassExec hu hready =>
    have hunch : c.unch ≠ .finished := by rw [hu]; simp
    refine ⟨hnh, hrr, fun _ => hready, ?_, pre, rest, hsplit, hpc, ?_⟩
    · intro hf; exfalso; simp at hf
    · simp [hsub, hunch]
  | unchSubmit hu hready =>
    have hdone : c.resume = .done := hrr hready
    have hrest : rest = [] := by
      rcases hpc with h1 | ⟨_, h2⟩
      · rw [hdone] at h1; simp at h1
      · exact h2
    have hunch : c.unch ≠ .finished := by rw [hu]; simp
    have hpre : pre = pending := by rw [hsplit, hrest, List.append_nil]
    refine ⟨hnh, fun _ => hdone, fun _ => hex (by rw [hu]; simp),
      fun _ => hready, pending, [], by simp, Or.inr ⟨hdone, rfl⟩, ?_⟩
    simp [hsub, hunch, hpre, hnh]

/-- Every reachable configuration satisfies the invariant. -/
theorem gateInv_reachable {pending : List PersistentUncharge} {h : Nat}
    {c : Config} (hr : Reachable (initConfig pending h) c) :
    GateInv pending h c := by
  induction hr with
  | refl => exact gateInv_init pending h
  | tail _ st ih => exact gateInv_step ih st

/-- Characterization of the resume pass: it submits exactly the records
whose state classifies as Pending and which reconstruct successfully,
in store order. -/
theorem resumeSwaps_eq_filter (records : List PersistentUncharge) :
    resumeSwaps records =
      (records.filter (fun p =>
        decide (p.state.typ = StateType.pending) && !p.malformed)).map
        (fun p => ⟨p.hash⟩) := by
  induction records with
  | nil => simp [resumeSwaps]
  | cons p rest ih =>
    by_cases ht : p.state.typ = StateType.pending <;>
      by_cases hm : p.malformed <;>
        simp [resumeSwaps, resumeUnchargeSwap, ht, hm, ih]

/-- C2 (counterexample): the resume pass does not submit every record
whose state classifies as Pending: a Pending record whose
reconstruction fails (a malformed record) is skipped. With the single
record `{hash := 7, state := initiated, malformed := true}`, the pass
submits nothing although the record classifies as Pending. -/
theorem resumeSwaps_not_exactly_pending :
    ¬ ∀ records : List PersistentUncharge,
        (resumeSwaps records).map Swap.hash =
          (records.filter (fun p =>
            decide (p.state.typ = StateType.pending))).map
            PersistentUncharge.hash := by
  intro hall
  exact absurd (hall [⟨7, .initiated, 0, 500, true⟩]) (by decide)

/-- C2 (amended): the resume pass submits to the executor exactly those
loaded records whose state classifies as Pending and whose
reconstruction succeeds, in order; consequently every submission
originates from a Pending, well-formed record, so a record whose
persisted state is Terminal at load time is never resubmitted. -/
theorem resumeSwaps_pending_and_reconstructable
    (records : List PersistentUncharge) :
    resumeSwaps records =
      (records.filter (fun p =>
        decide (p.state.typ = StateType.pending) && !p.malformed)).map
        (fun p => ⟨p.hash⟩) ∧
    ∀ sw ∈ resumeSwaps records, ∃ p ∈ records,
      p.state.typ = StateType.pending ∧ p.malformed = false ∧
        sw.hash = p.hash := by
  refine ⟨resumeSwaps_eq_filter records, ?_⟩
  intro sw hsw
  rw [resumeSwaps_eq_filter records] at hsw
  simp only [List.mem_map, List.mem_filter, Bool.and_eq_true,
    decide_eq_true_eq, Bool.not_eq_true'] at hsw
  obtain ⟨p, ⟨hmem, ht, hm⟩, rfl⟩ := hsw
  exact ⟨p, hmem, ht, hm, rfl⟩

/-- C3: calling `Run` on an instance whose `started` flag is already set
fails with the already-started error and performs no side effects: the
client state is unchanged and no milestone (store query, resume pass,
executor start) is reached. -/
theorem run_rejects_second_start (s : ClientState) (env : RunEnv)
    (hs : s.started = true) :
    Client.Run s env = (some .alreadyStarted, s, []) := by
  simp [Client.Run, hs]

/-- C3 witness. -/
theorem run_rejects_second_start_witness :
    Client.Run ⟨true, [], false, false, []⟩ ⟨true, true, none⟩ =
      (some .alreadyStarted, ⟨true, [], false, false, []⟩, []) :=
  run_rejects_second_start _ _ rfl

/-- C4: when the executor's main loop returns `context.Canceled`
(the caller cancelled the context), `Run` returns a nil (non-error)
result, and only after the draining milestones (`executor.waitFinished`
and `wg.Wait`) have run, so all units have exited. -/
theorem run_cancellation_returns_nil (s : ClientState) (env : RunEnv)
    (hns : s.started = false) (hinfo : env.getInfoOk = true)
    (hstore : env.storeReadOk = true)
    (hcancel : env.execResult = some .ctxCanceled) :
    (Client.Run s env).1 = none ∧
    (Client.Run s env).2.2 =
      [.storeQuery, .resumePass, .closeResumeGate, .execRun,
       .execWaitFinished, .wgWait] := by
  simp [Client.Run, hns, hinfo, hstore, hcancel]

/-- C4 witness. -/
theorem run_cancellation_returns_nil_witness :
    (Client.Run ⟨false, [], false, false, []⟩
        ⟨true, true, some .ctxCanceled⟩).1 = none :=
  (run_cancellation_returns_nil _ _ rfl rfl rfl rfl).1

/-- C7: `UnchargeQuote` is purely read-only: for every input and every
outcome, the client state (in particular the store) is unchanged. -/
theorem unchargeQuote_preserves_store (s : ClientState) (env : QuoteEnv)
    (req : UnchargeQuoteRequest) :
    (Client.UnchargeQuote s env req).2.store = s.store ∧
    (Client.UnchargeQuote s env req).2 = s := by
  have hmain : (Client.UnchargeQuote s env req).2 = s := by
    simp only [Client.UnchargeQuote]
    cases env.terms with
    | none => rfl
    | some t =>
      by_cases h1 : req.Amount < t.MinSwapAmount
      · simp [h1]
      · by_cases h2 : req.Amount > t.MaxSwapAmount
        · simp [h1, h2]
        · cases env.sweepFee <;> simp [h1, h2]
  exact ⟨by rw [hmain], hmain⟩

/-- C5: for well-formed server terms, a request whose amount is below
`MinSwapAmount` makes both `UnchargeQuote` and `Uncharge` fail with the
amount-too-low error, and one whose amount is above `MaxSwapAmount`
makes both fail with the amount-too-high error; in all four cases the
client state — in particular the store — is unchanged, so no record is
persisted. For `Uncharge`, the gates are assumed open (the wait
returned normally). -/
theorem amount_bounds_validation (s : ClientState) (qenv : QuoteEnv)
    (uenv : UnchargeEnv) (terms : UnchargeTerms)
    (qreq : UnchargeQuoteRequest) (ureq : UnchargeRequest)
    (hwf : terms.MinSwapAmount ≤ terms.MaxSwapAmount)
    (hqt : qenv.terms = some terms) (hut : uenv.terms = some terms)
    (hw : waitForInitialized s.execReady s.resumeReady uenv.ctxDone
        uenv.c1 uenv.c2 = .ok) :
    (qreq.Amount < terms.MinSwapAmount →
      Client.UnchargeQuote s qenv qreq = (.error .swapAmountTooLow, s)) ∧
    (qreq.Amount > terms.MaxSwapAmount →
      Client.UnchargeQuote s qenv qreq = (.error .swapAmountTooHigh, s)) ∧
    (ureq.Amount < terms.MinSwapAmount →
      Client.Uncharge s uenv ureq = (some (.error .swapAmountTooLow), s)) ∧
    (ureq.Amount > terms.MaxSwapAmount →
      Client.Uncharge s uenv ureq = (some (.error .swapAmountTooHigh), s)) := by
  refine ⟨?_, ?_, ?_, ?_⟩
  · intro hlow
    simp [Client.UnchargeQuote, hqt, hlow]
  · intro hhigh
    have hnotlow : ¬ qreq.Amount < terms.MinSwapAmount := by omega
    simp [Client.UnchargeQuote, hqt, hnotlow, hhigh]
  · intro hlow
    simp [Client.Uncharge, hw, newUnchargeSwap, hut, hlow]
  · intro hhigh
    have hnotlow : ¬ ureq.Amount < terms.MinSwapAmount := by omega
    simp [Client.Uncharge, hw, newUnchargeSwap, hut, hnotlow, hhigh]

/-- C5 witness: terms `{min = 10000, max = 1000000}`, quote request for
`5000` fails too-low, uncharge request for `2000000` fails too-high. -/
theorem amount_bounds_validation_witness :
    Client.UnchargeQuote ⟨true, [], true, true, []⟩
        ⟨some ⟨10000, 1000000, 100, 1/100, 0⟩, some 30⟩ ⟨5000, 6⟩ =
      (.error .swapAmountTooLow, ⟨true, [], true, true, []⟩) ∧
    Client.Uncharge ⟨true, [], true, true, []⟩
        ⟨false, false, false, some ⟨10000, 1000000, 100, 1/100, 0⟩, 600, 9⟩
        ⟨2000000⟩ =
      (some (.error .swapAmountTooHigh), ⟨true, [], true, true, []⟩) := by
  have h := amount_bounds_validation ⟨true, [], true, true, []⟩
    ⟨some ⟨10000, 1000000, 100, 1/100, 0⟩, some 30⟩
    ⟨false, false, false, some ⟨10000, 1000000, 100, 1/100, 0⟩, 600, 9⟩
    ⟨10000, 1000000, 100, 1/100, 0⟩ ⟨5000, 6⟩ ⟨2000000⟩
    (by norm_num) rfl rfl rfl
  exact ⟨h.1 (by norm_num), h.2.2.2 (by norm_num)⟩

/-- C6: a successful `UnchargeQuote` returns a swap fee equal to
`CalcFee` of the requested amount over the server's fee base and rate
(base plus rate times amount); concretely, with fee base `100` and fee
rate `1/100`, a request amount of `50000` yields a swap fee of `600`. -/
theorem quote_swap_fee_formula (s s' : ClientState) (qenv : QuoteEnv)
    (req : UnchargeQuoteRequest) (terms : UnchargeTerms) (q : UnchargeQuote)
    (hterms : qenv.terms = some terms)
    (hok : Client.UnchargeQuote s qenv req = (.ok q, s')) :
    q.SwapFee = CalcFee req.Amount terms.SwapFeeBase terms.SwapFeeRate ∧
    CalcFee 50000 100 (1/100) = 600 := by
  refine ⟨?_, by simp [CalcFee]; norm_num⟩
  simp only [Client.UnchargeQuote, hterms] at hok
  by_cases h1 : req.Amount < terms.MinSwapAmount
  · simp [h1] at hok
  · by_cases h2 : req.Amount > terms.MaxSwapAmount
    · simp [h1, h2] at hok
    · cases hfee : qenv.sweepFee with
      | none => simp [h1, h2, hfee] at hok
      | some mf =>
        simp only [h1, h2, hfee, if_false, if_neg] at hok
        rw [Prod.mk.injEq] at hok
        have := hok.1
        rw [Except.ok.injEq] at this
        rw [← this]

/-- C6 witness: terms `{min = 10000, max = 1000000, feeBase = 100,
feeRate = 1/100, prepay = 1337}`, amount `50000`, miner fee `30`:
the quote succeeds with swap fee `600`. -/
theorem quote_swap_fee_formula_witness :
    Client.UnchargeQuote ⟨true, [], true, true, []⟩
        ⟨some ⟨10000, 1000000, 100, 1/100, 1337⟩, some 30⟩ ⟨50000, 6⟩ =
      (.ok ⟨600, 30, 1337⟩, ⟨true, [], true, true, []⟩) ∧
    (600 : Int) = CalcFee 50000 100 (1/100) := by
  have hok : Client.UnchargeQuote ⟨true, [], true, true, []⟩
      ⟨some ⟨10000, 1000000, 100, 1/100, 1337⟩, some 30⟩ ⟨50000, 6⟩ =
      (.ok ⟨600, 30, 1337⟩, ⟨true, [], true, true, []⟩) := by
    simp [Client.UnchargeQuote, CalcFee]
    norm_num
  have h := quote_swap_fee_formula ⟨true, [], true, true, []⟩
    ⟨true, [], true, true, []⟩
    ⟨some ⟨10000, 1000000, 100, 1/100, 1337⟩, some 30⟩ ⟨50000, 6⟩
    ⟨10000, 1000000, 100, 1/100, 1337⟩ ⟨600, 30, 1337⟩ rfl hok
  exact ⟨hok, h.1⟩

/-- If the context is cancelled and at least one gate has not fired,
`waitForInitialized` takes a context arm and reports the context error,
whatever the scheduler's select choices. -/
theorem waitForInitialized_ctxErr (e r c1 c2 : Bool)
    (hgates : ¬ (e = true ∧ r = true)) :
    waitForInitialized e r true c1 c2 = .ctxErr := by
  revert hgates
  cases e <;> cases r <;> cases c1 <;> cases c2 <;> decide

/-- C8: if the caller's context is cancelled before both gates have
fired, `Uncharge` returns the context error with a nil identifier, and
the client state is unchanged: no swap is constructed, no record is
persisted, nothing is submitted to the executor. -/
theorem uncharge_cancelled_before_gates (s : ClientState)
    (env : UnchargeEnv) (req : UnchargeRequest)
    (hctx : env.ctxDone = true)
    (hgates : ¬ (s.execReady = true ∧ s.resumeReady = true)) :
    Client.Uncharge s env req = (some (.error .ctxCanceled), s) := by
  have hw : waitForInitialized s.execReady s.resumeReady env.ctxDone
      env.c1 env.c2 = .ctxErr := by
    rw [hctx]; exact waitForInitialized_ctxErr _ _ _ _ hgates
  simp [Client.Uncharge, hw]

/-- C8 witness: executor ready but resume gate still closed, context
cancelled. -/
theorem uncharge_cancelled_before_gates_witness :
    Client.Uncharge ⟨true, [], true, false, []⟩
        ⟨true, false, false, some ⟨10000, 1000000, 100, 1/100, 0⟩, 600, 9⟩
        ⟨50000⟩ =
      (some (.error .ctxCanceled), ⟨true, [], true, false, []⟩) :=
  uncharge_cancelled_before_gates _ _ _ rfl (by simp)

/-- C9: a record that fails to resume does not abort the resume pass —
the submissions are exactly those of the surrounding records — and the
`resumeReady` gate is closed by `Run` regardless of the store's
contents. -/
theorem resume_failure_skipped_pass_continues
    (xs ys : List PersistentUncharge) (p : PersistentUncharge)
    (hbad : p.malformed = true) (s : ClientState) (env : RunEnv)
    (hns : s.started = false) (hinfo : env.getInfoOk = true)
    (hstore : env.storeReadOk = true) :
    resumeSwaps (xs ++ p :: ys) = resumeSwaps xs ++ resumeSwaps ys ∧
    (Client.Run s env).2.1.resumeReady = true := by
  constructor
  · simp [resumeSwaps_eq_filter, List.filter_append, hbad]
  · simp [Client.Run, hns, hinfo, hstore]

/-- C9 witness: a malformed pending record between two resumable ones
is skipped; the well-formed neighbours are both submitted and the gate
closes. -/
theorem resume_failure_skipped_pass_continues_witness :
    resumeSwaps [⟨1, .initiated, 0, 500, false⟩,
        ⟨2, .htlcBroadcast, 0, 500, true⟩,
        ⟨3, .offchainSettled, 0, 500, false⟩] = [⟨1⟩, ⟨3⟩] ∧
    (Client.Run ⟨false, [⟨2, .htlcBroadcast, 0, 500, true⟩], false, false, []⟩
        ⟨true, true, none⟩).2.1.resumeReady = true := by
  have h := resume_failure_skipped_pass_continues
    [⟨1, .initiated, 0, 500, false⟩] [⟨3, .offchainSettled, 0, 500, false⟩]
    ⟨2, .htlcBroadcast, 0, 500, true⟩ rfl
    ⟨false, [⟨2, .htlcBroadcast, 0, 500, true⟩], false, false, []⟩
    ⟨true, true, none⟩ rfl rfl rfl
  exact ⟨h.1.trans (by decide), h.2⟩

/-- C10: on a not-yet-started instance, any `Run` call — including one
that fails early on connectivity or store errors — leaves the `started`
flag set, and every subsequent `Run` call on the resulting state fails
with the already-started error and no side effects. -/
theorem started_flag_permanent (s : ClientState) (env : RunEnv)
    (hns : s.started = false) :
    (Client.Run s env).2.1.started = true ∧
    ∀ env' : RunEnv,
      Client.Run (Client.Run s env).2.1 env' =
        (some .alreadyStarted, (Client.Run s env).2.1, []) := by
  have hstarted : (Client.Run s env).2.1.started = true := by
    simp only [Client.Run, hns, Bool.false_eq_true, if_false]
    cases hinfo : env.getInfoOk <;> cases hst : env.storeReadOk <;> simp
  refine ⟨hstarted, fun env' => ?_⟩
  generalize (Client.Run s env).2.1 = s2 at hstarted ⊢
  simp [Client.Run, hstarted]

/-- C10 witness: a start that fails on connectivity (`GetInfo` error)
still leaves the client unable to be restarted. -/
theorem started_flag_permanent_witness :
    (Client.Run ⟨false, [], false, false, []⟩ ⟨false, true, none⟩).1 =
      some .getInfoError ∧
    (Client.Run (Client.Run ⟨false, [], false, false, []⟩
        ⟨false, true, none⟩).2.1 ⟨true, true, none⟩).1 =
      some .alreadyStarted := by
  have h := started_flag_permanent ⟨false, [], false, false, []⟩
    ⟨false, true, none⟩ rfl
  exact ⟨rfl, by rw [h.2 ⟨true, true, none⟩]⟩

/-- C1: in every reachable interleaving of `Run`'s resume pass, the
executor's readiness signal and an `Uncharge` caller, if the swap
requested via `Uncharge` has been submitted, then both synchronization
gates have fired and the submission list consists of all the resume
pass's submissions for the persisted snapshot followed by the
`Uncharge` submission: the new swap is submitted strictly after the
resume pass has finished submitting every persisted pending swap. -/
theorem uncharge_submission_postdates_resume_pass
    (pending : List PersistentUncharge) (h : Nat) (c : Config)
    (hr : Reachable (initConfig pending h) c)
    (hmem : (⟨true, h⟩ : SubmitEntry) ∈ c.submitted) :
    c.execReady = true ∧ c.resumeReady = true ∧
      c.submitted = resumeEntries pending ++ [⟨true, h⟩] := by
  obtain ⟨hnh, hrr, hex, hfin, pre, rest, hsplit, hpc, hsub⟩ :=
    gateInv_reachable hr
  have hfinished : c.unch = .finished := by
    by_contra hne
    rw [hsub, if_neg hne, List.append_nil] at hmem
    have := resumeEntries_fromUncharge_false hmem
    simp at this
  have hready := hfin hfinished
  have hdone := hrr hready
  have hrest : rest = [] := by
    rcases hpc with h1 | ⟨_, h2⟩
    · rw [hdone] at h1; simp at h1
    · exact h2
  have hpre : pre = pending := by rw [hsplit, hrest, List.append_nil]
  refine ⟨hex (by rw [hfinished]; simp), hready, ?_⟩
  rw [hsub, if_pos hfinished, hpre]

/-- C1 witness: one pending persisted record (hash 7) and one `Uncharge`
caller (fresh hash 42). Along the interleaving resume-submit,
gate-close, executor-ready, pass-first-select, uncharge-submit, the
final configuration has the `Uncharge` submission, and it postdates the
resume pass's submission. -/
theorem uncharge_submission_postdates_resume_pass_witness :
    ∃ c : Config,
      Reachable (initConfig [⟨7, .initiated, 0, 500, false⟩] 42) c ∧
      (⟨true, 42⟩ : SubmitEntry) ∈ c.submitted ∧
      c.submitted =
        resumeEntries [⟨7, .initiated, 0, 500, false⟩] ++ [⟨true, 42⟩] := by
  have t1 : Step (initConfig [⟨7, .initiated, 0, 500, false⟩] 42)
      ⟨false, false, .running [], .waitExec, 42, [⟨false, 7⟩]⟩ :=
    Step.resumeSubmit _ ⟨7, .initiated, 0, 500, false⟩ [] rfl (by decide)
  have t2 : Step ⟨false, false, .running [], .waitExec, 42, [⟨false, 7⟩]⟩
      ⟨false, true, .done, .waitExec, 42, [⟨false, 7⟩]⟩ :=
    Step.resumeClose _ rfl
  have t3 : Step ⟨false, true, .done, .waitExec, 42, [⟨false, 7⟩]⟩
      ⟨true, true, .done, .waitExec, 42, [⟨false, 7⟩]⟩ :=
    Step.execFire _
  have t4 : Step ⟨true, true, .done, .waitExec, 42, [⟨false, 7⟩]⟩
      ⟨true, true, .done, .waitResume, 42, [⟨false, 7⟩]⟩ :=
    Step.unchPassExec _ rfl rfl
  have t5 : Step ⟨true, true, .done, .waitResume, 42, [⟨false, 7⟩]⟩
      ⟨true, true, .done, .finished, 42, [⟨false, 7⟩, ⟨true, 42⟩]⟩ :=
    Step.unchSubmit _ rfl rfl
  have hreach : Reachable (initConfig [⟨7, .initiated, 0, 500, false⟩] 42)
      ⟨true, true, .done, .finished, 42, [⟨false, 7⟩, ⟨true, 42⟩]⟩ :=
    Relation.ReflTransGen.tail
      (Relation.ReflTransGen.tail
        (Relation.ReflTransGen.tail
          (Relation.ReflTransGen.tail
            (Relation.ReflTransGen.tail Relation.ReflTransGen.refl t1)
            t2) t3) t4) t5
  have hmem : (⟨true, 42⟩ : SubmitEntry) ∈
      (⟨true, true, .done, .finished, 42,
        [⟨false, 7⟩, ⟨true, 42⟩]⟩ : Config).submitted := by decide
  have h := uncharge_submission_postdates_resume_pass
    [⟨7, .initiated, 0, 500, false⟩] 42
    ⟨true, true, .done, .finished, 42, [⟨false, 7⟩, ⟨true, 42⟩]⟩
    hreach hmem
  exact ⟨_, hreach, hmem, h.2.2⟩
